import Mathlib

/-!
Verification of the windowed functional-connectivity pipeline in
`src/old/functional_connectivity_v2.py` against its specification.

The embedding follows the source line by line:

* `n_windows`, `windowOf`, `window_timestamp`, `dynamic_fc_model` embed
  `dynamic_fc` (lines 52-70): the window count (line 54), the
  `np.zeros((n_windows,100,100))` allocation (line 57), the row slicing
  (line 62) and the timestamp formula (line 64).  Python ints are modelled
  as `ℤ` (Python `//` is floor division, `Int.fdiv`); where the relevant
  quantities are nonnegative, `ℕ` with its floor division is used.
* `colMean`, `centered`, `pearson`, `stationary_fc` embed `stationary_fc`
  (lines 41-48): nilearn's `ConnectivityMeasure(kind="correlation")`
  computes the Pearson correlation of the (z-scored) columns, and z-scoring
  leaves the Pearson correlation unchanged, so the matrix entry is the
  Pearson correlation of the two raw columns; `np.fill_diagonal(_, 0)`
  forces the diagonal to `0`.  Exact real arithmetic (`ℝ`) stands in for
  floating point.
* `dynamic_gfc` embeds `dynamic_gfc` (lines 73-76): `np.sum(W, axis=0)`
  sums over the first (row) index, so entry `c` of the result is the sum
  of column `c` divided by `n_parcels - 1`.
* `FVal` and `dynamic_gfcF` re-embed the same aggregation over a value
  domain with an explicit IEEE-style `NaN` (NaN propagates through
  addition; the divisor `R - 1` is nonzero in every claim considered, so
  infinities never arise), to settle the NaN-propagation claims.
* `npWhereEq`, `enumFrom1`, `makeFrameVolume`, `create_dgfc_volumes`
  embed `I2Run.create_dgfc_volumes` (lines 129-154).  The voxel grid is
  flattened to a `List ℚ` (`get_fdata` yields floats; the label values and
  the masked comparisons `frame_volume == parcel` are exact, so `ℚ` models
  them faithfully).  `dict(enumerate(frame_values, 1))` iterates its items
  in insertion order `(1, v₀), (2, v₁), …`, and each
  `frame_volume[frame_volume == parcel] = gfc_value` is an in-place masked
  update of the *current* frame volume — later iterations see the values
  written by earlier ones.  The loop state carries the (never reassigned)
  `frame_template` alongside the accumulated output volumes, so that
  non-mutation of the label volume is a theorem about the embedding rather
  than an assumption.
-/

/-! ## Window segmentation (`dynamic_fc`, lines 52-70) -/

/-- Line 54: `n_windows = (timeseries.shape[0] - window_size) // step_size + 1`
(Python `//` is floor division; all operands are Python ints, i.e. `ℤ`). -/
def n_windows (T window_size step_size : ℤ) : ℤ :=
  (T - window_size).fdiv step_size + 1

/-- Line 62: `timeseries[i*step_size : i*step_size+window_size, :]` —
the rows of the time series are a list, a slice drops the first
`i*step_size` rows and takes the next `window_size` (clipping at the end,
exactly as a Python slice does). -/
def windowOf {α : Type} (rows : List α) (step_size window_size i : ℕ) : List α :=
  (rows.drop (i * step_size)).take window_size

/-- Line 64: `(i * step_size + window_size // 2) * frame_ms / 1000`.
The final `/` is Python float division; with exact arithmetic the value is
the rational below.  The parameters and the loop index are nonnegative. -/
def window_timestamp (window_size step_size frame_ms i : ℕ) : ℚ :=
  (((i * step_size + window_size / 2) * frame_ms : ℕ) : ℚ) / 1000

/-- The ways `dynamic_fc` can raise at runtime: line 54 divides by
`step_size` (`ZeroDivisionError` when it is `0`); line 57 allocates
`np.zeros((n_windows, 100, 100))` (`ValueError` when `n_windows < 0`);
line 63 assigns the `R×R` result of `stationary_fc` into a `100×100`
slot, which numpy broadcasting rejects unless `R = 100` or `R = 1`. -/
inductive PyError where
  | zeroDivision : PyError
  | negativeDimension : PyError
  | broadcastMismatch : PyError
deriving DecidableEq

deriving instance DecidableEq for Except

/-- Control flow and array shapes of `dynamic_fc` (lines 52-70) for a
`T×R` input time series: either a Python exception, or the shape
`(n_windows, 100, 100)` of the returned `dfc_matrix` (line 57 hardcodes
the per-window matrix size to `100×100`). -/
def dynamic_fc_model (T R window_size step_size : ℤ) : Except PyError (ℤ × ℤ × ℤ) :=
  if step_size = 0 then .error .zeroDivision
  else
    let n := n_windows T window_size step_size
    if n < 0 then .error .negativeDimension
    else if 0 < n ∧ R ≠ 100 ∧ R ≠ 1 then .error .broadcastMismatch
    else .ok (n, 100, 100)

/-! ## Stationary connectivity (`stationary_fc`, lines 41-48) -/

/-- Mean of a column of `T` samples (`T` is cast to `ℝ`). -/
noncomputable def colMean {T : ℕ} (x : Fin T → ℝ) : ℝ :=
  (∑ t, x t) / T

/-- A column with its mean subtracted. -/
noncomputable def centered {T : ℕ} (x : Fin T → ℝ) (t : Fin T) : ℝ :=
  x t - colMean x

/-- Pearson correlation of two columns, the entry computed by
`ConnectivityMeasure(kind="correlation")` in line 46 (its z-scoring of the
columns leaves this value unchanged, since the Pearson correlation is
invariant under positive affine rescaling of either argument). -/
noncomputable def pearson {T : ℕ} (x y : Fin T → ℝ) : ℝ :=
  (∑ t, centered x t * centered y t) /
    (Real.sqrt (∑ t, centered x t ^ 2) * Real.sqrt (∑ t, centered y t ^ 2))

/-- Lines 41-48: the correlation matrix of the time series' columns with
the diagonal then forced to `0` by `np.fill_diagonal(sfc_matrix, 0)`. -/
noncomputable def stationary_fc {T R : ℕ} (timeseries : Fin T → Fin R → ℝ)
    (i j : Fin R) : ℝ :=
  if i = j then 0 else pearson (fun t => timeseries t i) (fun t => timeseries t j)

/-! ## Global connectivity aggregation (`dynamic_gfc`, lines 73-76) -/

/-- Lines 73-76: `np.sum(W, axis=0) / (n_parcels - 1)`.  `axis=0` sums
over the first (row) index, so entry `c` is the sum of *column* `c` of
`W`, divided by `R - 1` (an int-to-float division in Python, exact here). -/
noncomputable def dynamic_gfc {R : ℕ} (W : Fin R → Fin R → ℝ) (c : Fin R) : ℝ :=
  (∑ r, W r c) / ((R : ℝ) - 1)

/-- A float-like value domain with an explicit `NaN`.  Finite values are
exact rationals; `NaN` is the IEEE quiet NaN produced by correlating a
zero-variance column. -/
inductive FVal where
  | nan : FVal
  | num : ℚ → FVal
deriving DecidableEq

/-- IEEE addition restricted to finite values and NaN: NaN propagates. -/
def FVal.add : FVal → FVal → FVal
  | num a, num b => num (a + b)
  | _, _ => nan

instance : Add FVal := ⟨FVal.add⟩

instance : Zero FVal := ⟨FVal.num 0⟩

instance : AddCommMonoid FVal where
  add_assoc a b c := by
    have h : ∀ x y : FVal, x + y = FVal.add x y := fun _ _ => rfl
    cases a <;> cases b <;> cases c <;> simp [h, FVal.add, add_assoc]
  zero_add a := by
    have h : ∀ x y : FVal, x + y = FVal.add x y := fun _ _ => rfl
    have hz : (0 : FVal) = FVal.num 0 := rfl
    cases a <;> simp [h, hz, FVal.add]
  add_zero a := by
    have h : ∀ x y : FVal, x + y = FVal.add x y := fun _ _ => rfl
    have hz : (0 : FVal) = FVal.num 0 := rfl
    cases a <;> simp [h, hz, FVal.add]
  add_comm a b := by
    have h : ∀ x y : FVal, x + y = FVal.add x y := fun _ _ => rfl
    cases a <;> cases b <;> simp [h, FVal.add, add_comm]
  nsmul := nsmulRec

/-- IEEE division of a value by a nonzero finite rational: NaN propagates.
(The only divisor used below is `R - 1` with `R ≥ 2`; division by zero,
which would produce an infinity, is mapped to NaN and never exercised.) -/
def FVal.divq (v : FVal) (d : ℚ) : FVal :=
  match v with
  | nan => nan
  | num a => if d = 0 then nan else num (a / d)

/-- Lines 73-76 again (`np.sum(W, axis=0) / (n_parcels - 1)`), over the
NaN-aware value domain: entry `c` is the sum of column `c` divided by
`R - 1`, with NaN propagating through sum and division as in IEEE. -/
def dynamic_gfcF {R : ℕ} (W : Fin R → Fin R → FVal) (c : Fin R) : FVal :=
  (∑ r, W r c).divq ((R : ℚ) - 1)

/-! ## Volume reconstruction (`I2Run.create_dgfc_volumes`, lines 129-154) -/

/-- Line 145: `frame_volume[frame_volume == parcel] = gfc_value` — every
voxel currently equal to `label` is overwritten with `value`. -/
def npWhereEq (vol : List ℚ) (label value : ℚ) : List ℚ :=
  vol.map fun x => if x = label then value else x

/-- Keys `k, k+1, …` paired with the values, in order; `enumFrom1` below
is the insertion (and hence iteration) order of
`dict(enumerate(frame_values, 1))` in line 141. -/
def keyedFrom (k : ℕ) (vs : List ℚ) : List (ℕ × ℚ) :=
  (List.range' k vs.length).zip vs

/-- Line 141: `dict(enumerate(frame_values, 1))`, as its ordered item
list `(1, v₀), (2, v₁), …`. -/
def enumFrom1 (vs : List ℚ) : List (ℕ × ℚ) :=
  keyedFrom 1 vs

/-- Lines 139-145: copy the template, then run the replacement loop over
the parcel/value items *sequentially on the evolving copy* — iteration
`(parcel, value)` overwrites every voxel currently equal to `parcel`,
including values written by earlier iterations. -/
def makeFrameVolume (frame_template frame_values : List ℚ) : List ℚ :=
  (enumFrom1 frame_values).foldl
    (fun frame_volume pv => npWhereEq frame_volume (pv.1 : ℚ) pv.2)
    frame_template

/-- Lines 129-154, with the voxel grid flattened: the loop state is the
pair (frame template, output volumes).  Each iteration reads the template
(`frame_template.copy()` gives the fresh frame volume value), builds the
frame, and appends it as the next time slice of `volumes`; the template
component itself is only ever read.  The result is the pair (final
template state, list of frame volumes). -/
def create_dgfc_volumes (frame_template : List ℚ) (gdfc_matrix : List (List ℚ)) :
    List ℚ × List (List ℚ) :=
  gdfc_matrix.foldl
    (fun st frame_values => (st.1, st.2 ++ [makeFrameVolume st.1 frame_values]))
    (frame_template, [])

/-- The fate of a single voxel value `x` under the sequential replacement
loop: fold the keyed items over it, replacing `x` whenever it equals the
current key. -/
def apply_val (x : ℚ) (pairs : List (ℕ × ℚ)) : ℚ :=
  pairs.foldl (fun y pv => if y = (pv.1 : ℚ) then pv.2 else y) x

/-! ## Concrete inputs used by witnesses and counterexamples -/

/-- A `2×2` time series whose two columns are both `(0, 1)`: two samples,
two regions, both columns of nonzero variance. -/
noncomputable def exampleTS : Fin 2 → Fin 2 → ℝ :=
  fun t _ => ((t : ℕ) : ℝ)

/-- A `2×2` symmetric matrix with zero diagonal and constant off-diagonal
value `1/2`. -/
noncomputable def exampleW : Fin 2 → Fin 2 → ℝ :=
  fun i j => if i = j then 0 else 1 / 2

/-- The `2×2` correlation matrix of a window in which region `0` has zero
variance: diagonal forced to `0`, both off-diagonal entries NaN.  NaN
occurs exactly on the off-diagonal part of row `0` and column `0`. -/
def exampleNaNW : Fin 2 → Fin 2 → FVal :=
  fun r c => if r = c then FVal.num 0 else FVal.nan

/-- A two-window stack: window `0` is `exampleNaNW` (region `0`
degenerate), window `1` is fully numeric. -/
def exampleNaNStack : Fin 2 → Fin 2 → Fin 2 → FVal :=
  fun w => if w = 0 then exampleNaNW else fun _ _ => FVal.num (1 / 2)

/-! ## Helper lemmas: the replacement loop acts voxelwise -/

theorem foldl_npWhereEq_eq_map (pairs : List (ℕ × ℚ)) (t : List ℚ) :
    pairs.foldl (fun fv pv => npWhereEq fv (pv.1 : ℚ) pv.2) t
      = t.map (fun x => apply_val x pairs) := by
  induction pairs generalizing t with
  | nil => simp [apply_val]
  | cons p ps ih =>
      rw [List.foldl_cons, ih]
      simp only [npWhereEq, List.map_map]
      congr 1

theorem makeFrameVolume_eq_map (frame_template frame_values : List ℚ) :
    makeFrameVolume frame_template frame_values
      = frame_template.map (fun x => apply_val x (enumFrom1 frame_values)) :=
  foldl_npWhereEq_eq_map _ _

theorem create_dgfc_volumes_foldl (g : List (List ℚ)) (t : List ℚ)
    (acc : List (List ℚ)) :
    g.foldl (fun st frame_values => (st.1, st.2 ++ [makeFrameVolume st.1 frame_values]))
        (t, acc)
      = (t, acc ++ g.map (makeFrameVolume t)) := by
  induction g generalizing acc with
  | nil => simp
  | cons v g ih => simp [ih]

theorem create_dgfc_volumes_eq (t : List ℚ) (g : List (List ℚ)) :
    create_dgfc_volumes t g = (t, g.map (makeFrameVolume t)) := by
  simpa [create_dgfc_volumes] using create_dgfc_volumes_foldl g t []

theorem keyedFrom_cons (k : ℕ) (v : ℚ) (vs : List ℚ) :
    keyedFrom k (v :: vs) = (k, v) :: keyedFrom (k + 1) vs := by
  simp [keyedFrom, List.range'_succ]

theorem apply_val_of_no_key (vs : List ℚ) (k : ℕ) (x : ℚ)
    (h : ∀ j, j < vs.length → x ≠ ((k + j : ℕ) : ℚ)) :
    apply_val x (keyedFrom k vs) = x := by
  induction vs generalizing k with
  | nil => rfl
  | cons v vs ih =>
      rw [keyedFrom_cons]
      have hk : x ≠ (k : ℚ) := by simpa using h 0 (by simp)
      show apply_val (if x = (k : ℚ) then v else x) (keyedFrom (k + 1) vs) = x
      rw [if_neg hk]
      refine ih (k + 1) ?_
      intro j hj
      have h2 := h (j + 1) (by simpa using Nat.succ_lt_succ hj)
      have h3 : k + (j + 1) = (k + 1) + j := by omega
      rwa [h3] at h2

theorem apply_val_hit (vs : List ℚ) (k j : ℕ) (hj : j < vs.length)
    (hcoll : ∀ m : ℕ, k + j < m → m < k + vs.length → vs.getD j 0 ≠ (m : ℚ)) :
    apply_val ((k + j : ℕ) : ℚ) (keyedFrom k vs) = vs.getD j 0 := by
  induction vs generalizing k j with
  | nil => exact absurd hj (by simp)
  | cons v vs ih =>
      rw [keyedFrom_cons]
      cases j with
      | zero =>
          show apply_val (if ((k + 0 : ℕ) : ℚ) = (k : ℚ) then v else _)
              (keyedFrom (k + 1) vs) = _
          rw [if_pos (by norm_num)]
          show apply_val v (keyedFrom (k + 1) vs) = v
          refine apply_val_of_no_key vs (k + 1) v ?_
          intro i hi
          have h2 := hcoll ((k + 1) + i) (by omega)
            (by simp only [List.length_cons]; omega)
          simpa using h2
      | succ j =>
          have hne : ((k + (j + 1) : ℕ) : ℚ) ≠ (k : ℚ) := by
            intro hx
            have : k + (j + 1) = k := by exact_mod_cast hx
            omega
          show apply_val (if ((k + (j + 1) : ℕ) : ℚ) = (k : ℚ) then v else _)
              (keyedFrom (k + 1) vs) = _
          rw [if_neg hne]
          have hidx : k + (j + 1) = (k + 1) + j := by omega
          rw [hidx]
          have hgd : (v :: vs).getD (j + 1) 0 = vs.getD j 0 := by simp
          rw [hgd]
          have hj2 : j < vs.length := by
            simp only [List.length_cons] at hj; omega
          refine ih (k + 1) j hj2 ?_
          intro m hm1 hm2
          have := hcoll m (by omega) (by simp only [List.length_cons]; omega)
          simpa using this

theorem getD_map_of_lt {α β : Type} (h : α → β) (l : List α) (f : ℕ)
    (hf : f < l.length) (d : β) (e : α) :
    (l.map h).getD f d = h (l.getD f e) := by
  simp [List.getD_eq_getElem?_getD, List.getElem?_map, List.getElem?_eq_getElem hf]

theorem getD_mem_of_lt {α : Type} (l : List α) (f : ℕ) (hf : f < l.length) (d : α) :
    l.getD f d ∈ l := by
  rw [List.getD_eq_getElem?_getD, List.getElem?_eq_getElem hf]
  exact List.getElem_mem hf

/-! ## Claim C10 -/

/-- Claim C10: volume reconstruction leaves the input LabelVolume
unchanged — after `create_dgfc_volumes` runs, the template component of
the loop state is exactly the input template; every write went to the
newly built frame volumes. -/
theorem create_dgfc_volumes_preserves_template (frame_template : List ℚ)
    (gdfc_matrix : List (List ℚ)) :
    (create_dgfc_volumes frame_template gdfc_matrix).1 = frame_template := by
  rw [create_dgfc_volumes_eq]

/-! ## Claim C1 -/

/-- Claim C1 (amended): at every frame `f`, a voxel labelled `0` holds `0`,
and a voxel labelled `L` with `1 ≤ L ≤ R` holds `GlobalVector[f][L-1]` —
*provided* no GlobalVector entry for an earlier region collides with a
later region label (entry `j` never equals an integer `m` with
`j + 1 < m ≤ R`).  Without that proviso the sequential in-place
replacement of line 145 re-replaces already written values
(see the counterexample). -/
theorem create_dgfc_volumes_label_values (frame_template : List ℚ)
    (gdfc_matrix : List (List ℚ)) (R : ℕ)
    (hlen : ∀ vs ∈ gdfc_matrix, vs.length = R)
    (hcoll : ∀ vs ∈ gdfc_matrix, ∀ j, j < R → ∀ m, m < R + 1 → j + 1 < m →
      vs.getD j 0 ≠ (m : ℚ))
    (f : ℕ) (hf : f < gdfc_matrix.length) (p : ℕ) (hp : p < frame_template.length) :
    (frame_template.getD p 0 = 0 →
      ((create_dgfc_volumes frame_template gdfc_matrix).2.getD f []).getD p 0 = 0)
    ∧ (∀ L : ℕ, 1 ≤ L → L ≤ R → frame_template.getD p 0 = (L : ℚ) →
      ((create_dgfc_volumes frame_template gdfc_matrix).2.getD f []).getD p 0
        = (gdfc_matrix.getD f []).getD (L - 1) 0) := by
  rw [create_dgfc_volumes_eq]
  have hmem : gdfc_matrix.getD f [] ∈ gdfc_matrix := getD_mem_of_lt _ f hf []
  have hvslen : (gdfc_matrix.getD f []).length = R := hlen _ hmem
  have hframe : ((gdfc_matrix.map (makeFrameVolume frame_template)).getD f []).getD p 0
      = apply_val (frame_template.getD p 0) (enumFrom1 (gdfc_matrix.getD f [])) := by
    rw [getD_map_of_lt (makeFrameVolume frame_template) gdfc_matrix f hf [] [],
      makeFrameVolume_eq_map,
      getD_map_of_lt _ frame_template p hp 0 0]
  constructor
  · intro h0
    rw [hframe, h0]
    refine apply_val_of_no_key _ 1 0 ?_
    intro j hj hx
    have : (0 : ℕ) = 1 + j := by exact_mod_cast hx
    omega
  · intro L h1 hR hlabel
    rw [hframe, hlabel]
    have hcast : ((1 + (L - 1) : ℕ) : ℚ) = (L : ℚ) := by
      have : 1 + (L - 1) = L := by omega
      rw [this]
    rw [← hcast]
    refine apply_val_hit _ 1 (L - 1) (by omega) ?_
    intro m hm1 hm2
    exact hcoll _ hmem (L - 1) (by omega) m (by omega) (by omega)

/-- Witness for Claim C1: template voxels `0`, `1`, `2`, one frame with
GlobalVector `(9, -4)` (no entry collides with a label): the voxel
labelled `1` receives `9` and the background voxel stays `0`. -/
theorem create_dgfc_volumes_label_values_witness :
    ((create_dgfc_volumes [0, 1, 2] [[9, -4]]).2.getD 0 []).getD 1 0 = (9 : ℚ)
    ∧ ((create_dgfc_volumes [0, 1, 2] [[9, -4]]).2.getD 0 []).getD 0 0 = 0 := by
  constructor
  · have h := create_dgfc_volumes_label_values [0, 1, 2] [[9, -4]] 2
      (by decide) (by decide) 0 (by decide) 1 (by decide)
    simpa using h.2 1 (by decide) (by decide) (by decide)
  · have h := create_dgfc_volumes_label_values [0, 1, 2] [[9, -4]] 2
      (by decide) (by decide) 0 (by decide) 0 (by decide)
    exact h.1 (by decide)

/-- Counterexample for Claim C1 as stated: with LabelVolume `[1]`, `R = 2`
and GlobalVector `(2, 5)`, the voxel labelled `1` is first set to `2`
(= `GlobalVector[0][0]`), then the iteration for parcel `2` re-replaces it
with `5`; the output voxel holds `5`, not the `2` the claim requires. -/
theorem create_dgfc_volumes_collision_counterexample :
    ((create_dgfc_volumes [1] [[2, 5]]).2.getD 0 []).getD 0 0 = 5
    ∧ (5 : ℚ) ≠ 2 := by decide

/-! ## Claim C9 -/

/-- Claim C9 (amended): `create_dgfc_volumes` performs no label
validation.  A voxel whose label is negative or a natural number greater
than `R` is simply never matched by any replacement: reconstruction still
produces an output volume for every frame, and such a voxel passes its
raw label value through unchanged. -/
theorem create_dgfc_volumes_out_of_range (frame_template : List ℚ)
    (gdfc_matrix : List (List ℚ)) (R : ℕ)
    (hlen : ∀ vs ∈ gdfc_matrix, vs.length = R)
    (f : ℕ) (hf : f < gdfc_matrix.length) (p : ℕ) (hp : p < frame_template.length)
    (q : ℚ) (hq : frame_template.getD p 0 = q)
    (hout : q < 0 ∨ ∃ m : ℕ, q = (m : ℚ) ∧ R < m) :
    (create_dgfc_volumes frame_template gdfc_matrix).2.length = gdfc_matrix.length
    ∧ ((create_dgfc_volumes frame_template gdfc_matrix).2.getD f []).getD p 0 = q := by
  rw [create_dgfc_volumes_eq]
  have hmem : gdfc_matrix.getD f [] ∈ gdfc_matrix := getD_mem_of_lt _ f hf []
  have hvslen : (gdfc_matrix.getD f []).length = R := hlen _ hmem
  refine ⟨by simp, ?_⟩
  rw [getD_map_of_lt (makeFrameVolume frame_template) gdfc_matrix f hf [] [],
    makeFrameVolume_eq_map,
    getD_map_of_lt _ frame_template p hp 0 0, hq]
  refine apply_val_of_no_key _ 1 q ?_
  intro j hj hx
  rcases hout with hneg | ⟨m, rfl, hm⟩
  · have : (0 : ℚ) ≤ ((1 + j : ℕ) : ℚ) := by positivity
    rw [hx] at hneg
    linarith
  · have : m = 1 + j := by exact_mod_cast hx
    rw [hvslen] at hj
    omega

/-- Witness for Claim C9: LabelVolume `[3]` with `R = 2` and one frame of
GlobalVector `(5, 7)`: an output is produced (one frame) and the
out-of-range voxel still holds `3`. -/
theorem create_dgfc_volumes_out_of_range_witness :
    (create_dgfc_volumes [3] [[5, 7]]).2.length = 1
    ∧ ((create_dgfc_volumes [3] [[5, 7]]).2.getD 0 []).getD 0 0 = 3 := by
  have h := create_dgfc_volumes_out_of_range [3] [[5, 7]] 2
    (by decide) 0 (by decide) 0 (by decide) 3 (by decide)
    (Or.inr ⟨3, by norm_num, by omega⟩)
  simpa using h

/-- Counterexample for Claim C9 as stated: the label `3` exceeds
`R = 2`, yet reconstruction does not fail — it returns a complete output
volume (with the stray label passed through), instead of raising
`LabelOutOfRange`. -/
theorem create_dgfc_volumes_no_label_check_counterexample :
    create_dgfc_volumes [3] [[5, 7]] = ([3], [[3]]) := by decide

/-! ## Claim C4 -/

/-- Claim C4: with `0 < window_size ≤ T` and `step_size > 0`, the code
produces exactly `⌊(T − window_size)/step_size⌋ + 1` windows, and each
window `i` in range is a *full* window of exactly `window_size` rows,
covering the half-open row range `[i·step_size, i·step_size + window_size)`
of the time series (so a trailing partial window is never produced). -/
theorem dynamic_fc_window_count_coverage {α : Type} (rows : List α)
    (window_size step_size : ℕ) (hws : 0 < window_size)
    (hwT : window_size ≤ rows.length) (hstep : 0 < step_size) :
    n_windows rows.length window_size step_size
      = (((rows.length - window_size) / step_size + 1 : ℕ) : ℤ)
    ∧ ∀ i : ℕ, i < (rows.length - window_size) / step_size + 1 →
        (windowOf rows step_size window_size i).length = window_size
        ∧ ∀ j, j < window_size →
            (windowOf rows step_size window_size i)[j]? = rows[i * step_size + j]? := by
  constructor
  · show ((rows.length : ℤ) - (window_size : ℤ)).fdiv (step_size : ℤ) + 1 = _
    have hsub : (rows.length : ℤ) - (window_size : ℤ)
        = ((rows.length - window_size : ℕ) : ℤ) := by
      push_cast [hwT]
      ring
    rw [hsub, ← Int.ofNat_fdiv]
    push_cast
    ring
  · intro i hi
    have hile : i ≤ (rows.length - window_size) / step_size := by omega
    have hmul : i * step_size ≤ rows.length - window_size :=
      (Nat.le_div_iff_mul_le hstep).1 hile
    have hfit : i * step_size + window_size ≤ rows.length := by omega
    constructor
    · show ((rows.drop (i * step_size)).take window_size).length = window_size
      rw [List.length_take, List.length_drop]
      omega
    · intro j hj
      show ((rows.drop (i * step_size)).take window_size)[j]? = _
      rw [List.getElem?_take_of_lt hj, List.getElem?_drop]

/-- Witness for Claim C4, the spec's own scenario: 10 samples,
`window_size = 5`, `step_size = 5` gives exactly 2 windows, and window 1
is the 5 rows starting at row 5. -/
theorem dynamic_fc_window_count_coverage_witness :
    n_windows 10 5 5 = 2
    ∧ (windowOf (List.range 10) 5 5 1).length = 5
    ∧ (windowOf (List.range 10) 5 5 1)[0]? = (List.range 10)[5]? := by
  have h := dynamic_fc_window_count_coverage (List.range 10) 5 5
    (by norm_num) (by simp) (by norm_num)
  refine ⟨?_, ?_, ?_⟩
  · have h1 := h.1
    simpa using h1
  · exact (h.2 1 (by simp)).1
  · simpa using (h.2 1 (by simp)).2 0 (by norm_num)

/-! ## Claim C5 -/

/-- Claim C5: for a valid segmentation, the timestamp of window `i` is
`(i·step_size + ⌊window_size/2⌋) · frame_duration` seconds, where
`frame_duration = frame_ms / 1000`, and the timestamps are strictly
increasing in `i`. -/
theorem window_timestamp_formula_strict_mono (T window_size step_size frame_ms : ℕ)
    (hws : 0 < window_size) (hwT : window_size ≤ T) (hstep : 0 < step_size)
    (hfm : 0 < frame_ms) :
    (∀ i : ℕ, window_timestamp window_size step_size frame_ms i
      = ((i * step_size + window_size / 2 : ℕ) : ℚ) * ((frame_ms : ℚ) / 1000))
    ∧ ∀ i j : ℕ, i < j →
        window_timestamp window_size step_size frame_ms i
          < window_timestamp window_size step_size frame_ms j := by
  constructor
  · intro i
    show (((i * step_size + window_size / 2) * frame_ms : ℕ) : ℚ) / 1000 = _
    push_cast
    ring
  · intro i j hij
    show (((i * step_size + window_size / 2) * frame_ms : ℕ) : ℚ) / 1000
      < (((j * step_size + window_size / 2) * frame_ms : ℕ) : ℚ) / 1000
    rw [div_lt_div_iff_of_pos_right (by norm_num : (0 : ℚ) < 1000)]
    have hnat : (i * step_size + window_size / 2) * frame_ms
        < (j * step_size + window_size / 2) * frame_ms := by
      have : i * step_size < j * step_size := by
        exact Nat.mul_lt_mul_of_lt_of_le hij (Nat.le_refl _) hstep
      exact Nat.mul_lt_mul_of_lt_of_le (by omega) (Nat.le_refl _) hfm
    exact_mod_cast hnat

/-- Witness for Claim C5, the spec's own example: `window_size = 44`,
`step_size = 2`, `frame_ms = 900` (i.e. `frame_duration = 0.9 s`):
`timestamp(0) = 22 · 0.9 = 19.8 = 99/5`, and `timestamp(0) < timestamp(1)`. -/
theorem window_timestamp_formula_strict_mono_witness :
    window_timestamp 44 2 900 0 = 99 / 5
    ∧ window_timestamp 44 2 900 0 < window_timestamp 44 2 900 1 := by
  have h := window_timestamp_formula_strict_mono 100 44 2 900
    (by norm_num) (by norm_num) (by norm_num) (by norm_num)
  constructor
  · have h0 := h.1 0
    rw [h0]
    norm_num
  · exact h.2 0 1 (by norm_num)

/-! ## Helper lemmas for the integer window count -/

theorem fdiv_eq_neg_one_of_neg_small {x step : ℤ} (hstep : 0 < step)
    (h1 : -step ≤ x) (h2 : x < 0) : x.fdiv step = -1 := by
  rw [Int.fdiv_eq_ediv _ (le_of_lt hstep)]
  have ha : (x + 1 * step) / step = x / step + 1 :=
    Int.add_mul_ediv_right x 1 (by omega)
  have hz : (x + 1 * step) / step = 0 := by
    rw [one_mul]
    exact Int.ediv_eq_zero_of_lt (by omega) (by omega)
  omega

theorem n_windows_pos {T window_size step_size : ℤ} (hwT : window_size ≤ T)
    (hstep : 0 < step_size) : 0 < n_windows T window_size step_size := by
  unfold n_windows
  have : 0 ≤ (T - window_size).fdiv step_size :=
    Int.fdiv_nonneg (by omega) (by omega)
  omega

/-! ## Claim C8 -/

/-- Claim C8 (amended): `dynamic_fc` performs no parameter validation at
all.  When `window_size` exceeds `T` by at most `step_size` (in
particular `window_size = T + 1`), the window count is `0` and the call
*succeeds*, returning an empty stack instead of a `WindowTooLarge` error;
`step_size = 0` raises Python's `ZeroDivisionError` (not an `InvalidStep`
error); and a negative `step_size` can even return a normal, non-empty
result (`window_size = T`, `step_size = -1` yields one window). -/
theorem dynamic_fc_no_parameter_validation :
    (∀ T R window_size step_size : ℤ, T < window_size →
      window_size ≤ T + step_size → 0 < step_size →
      dynamic_fc_model T R window_size step_size = Except.ok (0, 100, 100))
    ∧ (∀ T R window_size : ℤ,
      dynamic_fc_model T R window_size 0 = Except.error PyError.zeroDivision)
    ∧ dynamic_fc_model 10 100 10 (-1) = Except.ok (1, 100, 100) := by
  refine ⟨?_, ?_, by decide⟩
  · intro T R window_size step_size h1 h2 h3
    have hn : n_windows T window_size step_size = 0 := by
      unfold n_windows
      have := fdiv_eq_neg_one_of_neg_small h3
        (by omega : -step_size ≤ T - window_size) (by omega)
      omega
    have h0 : ¬(step_size = 0) := by omega
    simp [dynamic_fc_model, h0, hn]
  · intro T R window_size
    simp [dynamic_fc_model]

/-- Witness for Claim C8: `T = 10`, `window_size = 11 = T + 1`,
`step_size = 2`, `R = 2`: the call returns an empty `ok` result; and with
`step_size = 0` it fails with `ZeroDivisionError`. -/
theorem dynamic_fc_no_parameter_validation_witness :
    dynamic_fc_model 10 2 11 2 = Except.ok (0, 100, 100)
    ∧ dynamic_fc_model 5 3 4 0 = Except.error PyError.zeroDivision := by
  have h := dynamic_fc_no_parameter_validation
  exact ⟨h.1 10 2 11 2 (by norm_num) (by norm_num) (by norm_num),
    h.2.1 5 3 4⟩

/-- Counterexample for Claim C8 as stated: `window_size = 11 > T = 10`
does not fail with `WindowTooLarge` — the computed window count is `0`
and the call returns successfully with an empty stack. -/
theorem dynamic_fc_window_too_large_counterexample :
    dynamic_fc_model 10 2 11 2 = Except.ok (0, 100, 100) ∧ (10 : ℤ) < 11 := by
  decide

/-! ## Claim C2 -/

/-- Claim C2 (amended): line 57 allocates the per-window matrices with
the *hardcoded* shape `n_windows × 100 × 100`, independent of the actual
number of regions `R`.  For `R = 100` the returned stack is the dense
`n_windows × R × R` array the claim describes; for any other `R ≥ 2`
(with valid window parameters, so at least one window) the per-window
assignment fails with a numpy broadcast error — the claimed shape
`n_windows × R × R` holds only when `R = 100`. -/
theorem dynamic_fc_shape_hardcoded (T R window_size step_size : ℤ)
    (hws : 0 < window_size) (hwT : window_size ≤ T) (hstep : 0 < step_size) :
    (R = 100 → dynamic_fc_model T R window_size step_size
      = Except.ok (n_windows T window_size step_size, 100, 100))
    ∧ (R ≠ 100 → R ≠ 1 → dynamic_fc_model T R window_size step_size
      = Except.error PyError.broadcastMismatch) := by
  have hn : 0 < n_windows T window_size step_size := n_windows_pos hwT hstep
  have h0 : ¬(step_size = 0) := by omega
  have h1 : ¬(n_windows T window_size step_size < 0) := by omega
  constructor
  · intro h100
    simp [dynamic_fc_model, h0, h1, h100]
  · intro hR hR1
    simp [dynamic_fc_model, h0, h1, hn, hR, hR1]

/-- Witness for Claim C2: for `R = 100`, `T = 4`, `window_size = 2`,
`step_size = 1` the stack of `n_windows = 3` matrices of shape `100×100`
is returned. -/
theorem dynamic_fc_shape_hardcoded_witness :
    dynamic_fc_model 4 100 2 1 = Except.ok (3, 100, 100) := by
  have h := (dynamic_fc_shape_hardcoded 4 100 2 1
    (by norm_num) (by norm_num) (by norm_num)).1 rfl
  rw [h]
  decide

/-- Counterexample for Claim C2 as stated: for `R = 2` regions (`T = 4`
samples, `window_size = 2`, `step_size = 1`, so `n_windows = 3 ≥ 1`) the
code does not produce a `3 × 2 × 2` stack — assigning the `2×2`
correlation matrix into the hardcoded `100×100` slot raises a broadcast
error. -/
theorem dynamic_fc_shape_r2_counterexample :
    dynamic_fc_model 4 2 2 1 = Except.error PyError.broadcastMismatch
    ∧ (2 : ℤ) ≠ 100 := by decide

/-! ## Claim C7 -/

/-- Claim C7: for an `R×R` correlation matrix (symmetric, zero diagonal,
`R ≥ 2`), entry `r` of the aggregate is the row mean
`(∑ c, W r c) / (R − 1)` — the code's column sum (`axis=0`) coincides
with the claimed row sum by symmetry — and a matrix with constant
off-diagonal value `c₀` aggregates to the constant vector `c₀`. -/
theorem dynamic_gfc_row_mean {R : ℕ} (W : Fin R → Fin R → ℝ) (hR : 2 ≤ R)
    (hdiag : ∀ i, W i i = 0) (hsym : ∀ i j, W i j = W j i) :
    (∀ r, dynamic_gfc W r = (∑ c, W r c) / ((R : ℝ) - 1))
    ∧ ∀ c0 : ℝ, (∀ i j, i ≠ j → W i j = c0) → ∀ r, dynamic_gfc W r = c0 := by
  have hRne : ((R : ℝ) - 1) ≠ 0 := by
    have : (2 : ℝ) ≤ (R : ℝ) := by exact_mod_cast hR
    intro hc
    linarith
  constructor
  · intro r
    unfold dynamic_gfc
    congr 1
    exact Finset.sum_congr rfl fun i _ => hsym i r
  · intro c0 hconst r
    unfold dynamic_gfc
    have hsum : (∑ i, W i r) = ((R : ℝ) - 1) * c0 := by
      rw [← Finset.add_sum_erase _ _ (Finset.mem_univ r), hdiag r, zero_add]
      rw [Finset.sum_congr rfl fun i hi => hconst i r (Finset.ne_of_mem_erase hi)]
      rw [Finset.sum_const, nsmul_eq_mul]
      rw [Finset.card_erase_of_mem (Finset.mem_univ r), Finset.card_univ,
        Fintype.card_fin]
      congr 1
      push_cast [Nat.cast_sub (by omega : 1 ≤ R)]
      ring
    rw [hsum, mul_comm, mul_div_assoc, div_self hRne, mul_one]

/-- Witness for Claim C7: the `2×2` matrix with zero diagonal and
constant off-diagonal `1/2` aggregates to `1/2` in every position. -/
theorem dynamic_gfc_row_mean_witness :
    dynamic_gfc exampleW 0 = 1 / 2
    ∧ dynamic_gfc exampleW 0 = (∑ c, exampleW 0 c) / ((2 : ℝ) - 1) := by
  have h := dynamic_gfc_row_mean exampleW (by norm_num)
    (fun i => by simp [exampleW])
    (fun i j => by
      by_cases hij : i = j
      · simp [exampleW, hij]
      · simp [exampleW, hij, Ne.symm hij])
  constructor
  · exact h.2 (1 / 2) (fun i j hij => by simp [exampleW, hij]) 0
  · have h0 := h.1 0
    simpa using h0

/-! ## Claim C3 -/

theorem sum_eq_nan_of_mem {ι : Type} [Fintype ι] [DecidableEq ι] (f : ι → FVal) (a : ι)
    (h : f a = FVal.nan) : (∑ i, f i) = FVal.nan := by
  rw [← Finset.add_sum_erase _ f (Finset.mem_univ a), h]
  generalize (∑ x ∈ Finset.univ.erase a, f x) = y
  cases y <;> rfl

theorem sum_ne_nan {ι : Type} [Fintype ι] (f : ι → FVal)
    (h : ∀ i, f i ≠ FVal.nan) : (∑ i, f i) ≠ FVal.nan := by
  refine Finset.sum_induction f (fun v => v ≠ FVal.nan) ?_ ?_ ?_
  · intro a b ha hb
    cases a with
    | nan => exact absurd rfl ha
    | num x =>
        cases b with
        | nan => exact absurd rfl hb
        | num y =>
            intro hc
            have hc2 : FVal.num (x + y) = FVal.nan := hc
            exact FVal.noConfusion hc2
  · intro hc
    have hc2 : FVal.num 0 = FVal.nan := hc
    exact FVal.noConfusion hc2
  · exact fun i _ => h i

/-- Claim C3 (amended): if window `i`'s correlation matrix has NaN exactly
in the off-diagonal part of row `k` and column `k` (a single
zero-variance region `k`), then the aggregation of line 75 contaminates
the *whole window*: every entry of window `i`'s GlobalVector is NaN — not
just entry `k` — because every column sum includes the NaN entry of row
`k`. Other windows (with no NaN) keep fully numeric aggregates. -/
theorem dynamic_gfcF_nan_contamination {n R : ℕ} (M : Fin n → Fin R → Fin R → FVal)
    (i : Fin n) (k : Fin R) (hR : 2 ≤ R)
    (hwin : ∀ r c : Fin R, M i r c = FVal.nan ↔ ((r = k ∨ c = k) ∧ r ≠ c))
    (hother : ∀ j : Fin n, j ≠ i → ∀ r c : Fin R, M j r c ≠ FVal.nan) :
    (∀ c : Fin R, dynamic_gfcF (M i) c = FVal.nan)
    ∧ ∀ j : Fin n, j ≠ i → ∀ c : Fin R, dynamic_gfcF (M j) c ≠ FVal.nan := by
  have hR1 : ((R : ℚ) - 1) ≠ 0 := by
    have : (2 : ℚ) ≤ (R : ℚ) := by exact_mod_cast hR
    intro hc
    linarith
  constructor
  · intro c
    have hex : ∃ r : Fin R, M i r c = FVal.nan := by
      by_cases hck : c = k
      · by_cases hk0 : k = (⟨0, by omega⟩ : Fin R)
        · refine ⟨⟨1, by omega⟩, (hwin _ _).2 ⟨Or.inr hck, ?_⟩⟩
          rw [hck, hk0]
          simp [Fin.ext_iff]
        · refine ⟨⟨0, by omega⟩, (hwin _ _).2 ⟨Or.inr hck, ?_⟩⟩
          rw [hck]
          exact fun hc0 => hk0 hc0.symm
      · exact ⟨k, (hwin k c).2 ⟨Or.inl rfl, fun hkc => hck hkc.symm⟩⟩
    obtain ⟨r, hr⟩ := hex
    unfold dynamic_gfcF
    rw [sum_eq_nan_of_mem _ r hr]
    rfl
  · intro j hj c
    have hs := sum_ne_nan (fun r => M j r c) (fun r => hother j hj r c)
    unfold dynamic_gfcF
    cases hx : (∑ r, M j r c) with
    | nan => exact absurd hx hs
    | num a => simp [FVal.divq, hR1]

/-- Witness for Claim C3: the two-window stack `exampleNaNStack` (window
`0` degenerate in region `0`, window `1` numeric): *both* entries of
window `0`'s aggregate are NaN — here entry `1` — while window `1`'s
aggregate stays numeric. -/
theorem dynamic_gfcF_nan_contamination_witness :
    dynamic_gfcF (exampleNaNStack 0) 1 = FVal.nan
    ∧ dynamic_gfcF (exampleNaNStack 1) 0 ≠ FVal.nan := by
  have h := dynamic_gfcF_nan_contamination exampleNaNStack 0 0 (by norm_num)
    (by decide) (by decide)
  exact ⟨h.1 1, h.2 1 (by decide) 0⟩

/-- Counterexample for Claim C3 as stated: `exampleNaNW` is the `2×2`
window matrix with NaN exactly in the off-diagonal part of row `0` and
column `0` (degenerate region `k = 0`), yet the aggregate at position
`1 ≠ k` — claimed to remain numeric — is NaN as well. -/
theorem dynamic_gfcF_nan_counterexample :
    (∀ r c : Fin 2, exampleNaNW r c = FVal.nan ↔ ((r = 0 ∨ c = 0) ∧ r ≠ c))
    ∧ dynamic_gfcF exampleNaNW 1 = FVal.nan := by decide

/-! ## Claim C6 -/

theorem pearson_symm {T : ℕ} (x y : Fin T → ℝ) : pearson x y = pearson y x := by
  unfold pearson
  rw [mul_comm (Real.sqrt (∑ t, centered x t ^ 2)) (Real.sqrt (∑ t, centered y t ^ 2))]
  congr 1
  exact Finset.sum_congr rfl fun t _ => mul_comm _ _

theorem abs_pearson_le_one {T : ℕ} (x y : Fin T → ℝ)
    (hx : (∑ t, centered x t ^ 2) ≠ 0) (hy : (∑ t, centered y t ^ 2) ≠ 0) :
    |pearson x y| ≤ 1 := by
  have hxpos : 0 < ∑ t, centered x t ^ 2 :=
    lt_of_le_of_ne (Finset.sum_nonneg fun t _ => sq_nonneg _) (Ne.symm hx)
  have hypos : 0 < ∑ t, centered y t ^ 2 :=
    lt_of_le_of_ne (Finset.sum_nonneg fun t _ => sq_nonneg _) (Ne.symm hy)
  have hd : 0 < Real.sqrt (∑ t, centered x t ^ 2) * Real.sqrt (∑ t, centered y t ^ 2) :=
    mul_pos (Real.sqrt_pos.2 hxpos) (Real.sqrt_pos.2 hypos)
  unfold pearson
  rw [abs_div, abs_of_pos hd, div_le_one hd]
  refine abs_le.2 ⟨?_, ?_⟩
  · have hneg := Real.sum_mul_le_sqrt_mul_sqrt Finset.univ
      (fun t => centered x t) (fun t => -centered y t)
    simp only [mul_neg, Finset.sum_neg_distrib, neg_sq] at hneg
    linarith
  · exact Real.sum_mul_le_sqrt_mul_sqrt Finset.univ
      (fun t => centered x t) (fun t => centered y t)

/-- Claim C6: for a valid segment (`T ≥ 2` rows, `R ≥ 2` regions, no
degenerate column, i.e. every column has nonzero centered sum of
squares), `stationary_fc` returns a symmetric matrix, with every diagonal
entry exactly `0`, and every off-diagonal entry in `[-1, 1]`. -/
theorem stationary_fc_symm_diag_bounded {T R : ℕ} (hT : 2 ≤ T) (hR : 2 ≤ R)
    (timeseries : Fin T → Fin R → ℝ)
    (hnd : ∀ j : Fin R, (∑ t, centered (fun s => timeseries s j) t ^ 2) ≠ 0) :
    (∀ i j, stationary_fc timeseries i j = stationary_fc timeseries j i)
    ∧ (∀ i, stationary_fc timeseries i i = 0)
    ∧ (∀ i j, i ≠ j →
        -1 ≤ stationary_fc timeseries i j ∧ stationary_fc timeseries i j ≤ 1) := by
  refine ⟨?_, ?_, ?_⟩
  · intro i j
    unfold stationary_fc
    by_cases hij : i = j
    · rw [if_pos hij, if_pos hij.symm]
    · rw [if_neg hij, if_neg (Ne.symm hij)]
      exact pearson_symm _ _
  · intro i
    simp [stationary_fc]
  · intro i j hij
    unfold stationary_fc
    rw [if_neg hij]
    have hb := abs_pearson_le_one (fun t => timeseries t i) (fun t => timeseries t j)
      (hnd i) (hnd j)
    exact abs_le.1 hb

/-- Witness for Claim C6: the `2×2` time series `exampleTS` (both columns
`(0, 1)`, nonzero variance): its `stationary_fc` matrix is symmetric in
positions `(0,1)/(1,0)`, has `0` at `(0,0)`, and its `(0,1)` entry lies in
`[-1, 1]`. -/
theorem stationary_fc_symm_diag_bounded_witness :
    stationary_fc exampleTS 0 1 = stationary_fc exampleTS 1 0
    ∧ stationary_fc exampleTS 0 0 = 0
    ∧ -1 ≤ stationary_fc exampleTS 0 1 ∧ stationary_fc exampleTS 0 1 ≤ 1 := by
  have hnd : ∀ j : Fin 2, (∑ t, centered (fun s => exampleTS s j) t ^ 2) ≠ 0 := by
    intro j
    have : (∑ t, centered (fun s => exampleTS s j) t ^ 2) = 1 / 2 := by
      simp [centered, colMean, exampleTS, Fin.sum_univ_two]
      norm_num
    rw [this]
    norm_num
  have h := stationary_fc_symm_diag_bounded (by norm_num) (by norm_num) exampleTS hnd
  obtain ⟨h1, h2, h3⟩ := h
  have hb := h3 0 1 (by decide)
  exact ⟨h1 0 1, h2 0, hb.1, hb.2⟩
